import Mathlib

/-!
Shallow embedding of `memorydb` (`src/util/memorydb/src/lib.rs`), the
reference-counted memory-based `HashDB` implementation of this repository.

Modelling choices:
* `DBValue` (an elastic byte array) is `Value := List Nat`.
* Hash digests (`<H as Hasher>::Out`) are `Digest := Nat`.
* The pluggable `Hasher` trait becomes a structure with a `hash` function and
  the constant `HASHED_NULL_RLP`.
* The backing `H256FastMap` (a `HashMap` with unique keys) is an association
  list `DataMap := List (Digest × (Value × Int))` together with the
  well-formedness predicate `MemoryDB.WF` stating that keys are distinct,
  which every `HashMap` guarantees structurally.  The `Entry` API is
  transcribed: `Entry::Occupied` mutation becomes `mapUpdate` (replace the
  entry in place), `Entry::Vacant(e).insert` becomes appending the fresh
  binding, `entry.remove()` becomes `mapRemove`.
* Reference counts (`i32`) are `Int` values kept within the `i32` range,
  and every `+= 1` / `-= 1` / `+= rc` of the source goes through `wrap32`,
  the two's-complement wrap-around of release-profile `i32` arithmetic
  (debug profiles panic at the same boundary; either way the exact
  unbounded-integer result is not produced there).
-/

/-- `rlp::NULL_RLP`: the canonical RLP encoding of empty data, the single
byte `0x80`. -/
def NULL_RLP : List Nat := [128]

abbrev Value := List Nat

abbrev Digest := Nat

/-- The `Hasher` capability: a hash function on byte strings plus the
well-known constant `HASHED_NULL_RLP` (intended to be `hash NULL_RLP`,
though the code never enforces that equation). -/
structure Hasher where
  hash : Value → Digest
  HASHED_NULL_RLP : Digest

/-- The backing map `H256FastMap<H, (DBValue, i32)>`, as an association
list keyed by digest. -/
abbrev DataMap := List (Digest × (Value × Int))

/-- `HashMap::get`: the value of the first (in a well-formed map, unique)
binding for `k`. -/
def mapLookup : DataMap → Digest → Option (Value × Int)
  | [], _ => none
  | (k', e) :: rest, k => if k' = k then some e else mapLookup rest k

/-- In-place mutation through an occupied `Entry`: replace the binding of
`k` (a no-op when `k` is absent). -/
def mapUpdate : DataMap → Digest → (Value × Int) → DataMap
  | [], _, _ => []
  | (k', e') :: rest, k, e =>
      if k' = k then (k', e) :: rest else (k', e') :: mapUpdate rest k e

/-- `OccupiedEntry::remove`: delete the binding of `k`. -/
def mapRemove : DataMap → Digest → DataMap
  | [], _ => []
  | (k', e') :: rest, k =>
      if k' = k then rest else (k', e') :: mapRemove rest k

/-- The list of keys of a map. -/
def keysOf (l : DataMap) : List Digest := l.map Prod.fst

/-- Release-profile `i32` arithmetic: wrap an integer into
`[-2^31, 2^31)` by two's complement. -/
def wrap32 (n : Int) : Int := (n + 2147483648) % 4294967296 - 2147483648

/-- The value range of an `i32`. -/
def InRange32 (rc : Int) : Prop := -2147483648 ≤ rc ∧ rc < 2147483648

instance (rc : Int) : Decidable (InRange32 rc) :=
  inferInstanceAs (Decidable ((-2147483648 ≤ rc) ∧ rc < 2147483648))

/-- `MemoryDB<H>`: the reference-counted overlay store; one field `data`. -/
structure MemoryDB where
  data : DataMap

/-- Well-formedness: distinct keys and every refcount within the `i32`
range — both structural guarantees of the Rust types (`HashMap` key
uniqueness; the refcount field being an `i32`). -/
def MemoryDB.WF (m : MemoryDB) : Prop :=
  (keysOf m.data).Nodup ∧ ∀ e ∈ m.data, InRange32 e.2.2

instance (m : MemoryDB) : Decidable m.WF :=
  inferInstanceAs
    (Decidable ((keysOf m.data).Nodup ∧ ∀ e ∈ m.data, InRange32 e.2.2))

/-- `MemoryDB::new`. -/
def MemoryDB.new : MemoryDB := ⟨[]⟩

/-- `MemoryDB::clear`: discard all data. -/
def MemoryDB.clear (_ : MemoryDB) : MemoryDB := ⟨[]⟩

/-- `MemoryDB::purge`: `self.data.retain(|_, &mut (_, rc)| rc != 0)`. -/
def MemoryDB.purge (m : MemoryDB) : MemoryDB :=
  ⟨m.data.filter (fun e => e.2.2 != 0)⟩

/-- `MemoryDB::drain`: return the internal map and reset the store. -/
def MemoryDB.drain (m : MemoryDB) : DataMap × MemoryDB :=
  (m.data, ⟨[]⟩)

/-- `MemoryDB::raw`: the stored tuple verbatim, with the synthetic
`(NULL_RLP, 1)` for the null digest. -/
def MemoryDB.raw (H : Hasher) (m : MemoryDB) (key : Digest) :
    Option (Value × Int) :=
  if key = H.HASHED_NULL_RLP then some (NULL_RLP, 1)
  else mapLookup m.data key

/-- `MemoryDB::mem_used`: delegates to the external heap-accounting
capability `sz` on the internal map. -/
def MemoryDB.mem_used (sz : DataMap → Nat) (m : MemoryDB) : Nat :=
  sz m.data

/-- `MemoryDB::remove_and_purge`. -/
def MemoryDB.remove_and_purge (H : Hasher) (m : MemoryDB) (key : Digest) :
    Option Value × MemoryDB :=
  if key = H.HASHED_NULL_RLP then (none, m)
  else
    match mapLookup m.data key with
    | some (v, rc) =>
        if rc = 1 then (some v, ⟨mapRemove m.data key⟩)
        else (none, ⟨mapUpdate m.data key (v, wrap32 (rc - 1))⟩)
    | none => (none, ⟨m.data ++ [(key, ([], -1))]⟩)

/-- One iteration of the `consolidate` loop body, for the drained binding
`kve = (key, (value, rc))`. -/
def consolidateEntry (acc : DataMap) (kve : Digest × (Value × Int)) :
    DataMap :=
  match mapLookup acc kve.1 with
  | some (sv, src) =>
      mapUpdate acc kve.1
        ((if src < 0 then kve.2.1 else sv), wrap32 (src + kve.2.2))
  | none => acc ++ [kve]

/-- `MemoryDB::consolidate`: fold the loop body over `other.drain()`. -/
def MemoryDB.consolidate (m other : MemoryDB) : MemoryDB :=
  ⟨(other.drain).1.foldl consolidateEntry m.data⟩

/-- `HashDB::keys`: every binding with nonzero refcount. -/
def MemoryDB.keys (m : MemoryDB) : List (Digest × Int) :=
  m.data.filterMap (fun e => if e.2.2 != 0 then some (e.1, e.2.2) else none)

/-- `HashDB::get`. -/
def MemoryDB.get (H : Hasher) (m : MemoryDB) (key : Digest) : Option Value :=
  if key = H.HASHED_NULL_RLP then some NULL_RLP
  else
    match mapLookup m.data key with
    | some (d, rc) => if rc > 0 then some d else none
    | none => none

/-- `HashDB::contains`. -/
def MemoryDB.contains (H : Hasher) (m : MemoryDB) (key : Digest) : Bool :=
  if key = H.HASHED_NULL_RLP then true
  else
    match mapLookup m.data key with
    | some (_, x) => decide (x > 0)
    | none => false

/-- `HashDB::insert`. -/
def MemoryDB.insert (H : Hasher) (m : MemoryDB) (value : Value) :
    Digest × MemoryDB :=
  if value = NULL_RLP then (H.HASHED_NULL_RLP, m)
  else
    match mapLookup m.data (H.hash value) with
    | some (old_value, rc) =>
        (H.hash value,
         ⟨mapUpdate m.data (H.hash value)
            ((if rc ≤ 0 then value else old_value), wrap32 (rc + 1))⟩)
    | none => (H.hash value, ⟨m.data ++ [(H.hash value, (value, 1))]⟩)

/-- `HashDB::emplace`.  Note: only the *value* is compared with `NULL_RLP`;
the supplied key is not checked against the null digest. -/
def MemoryDB.emplace (m : MemoryDB) (key : Digest) (value : Value) :
    MemoryDB :=
  if value = NULL_RLP then m
  else
    match mapLookup m.data key with
    | some (old_value, rc) =>
        ⟨mapUpdate m.data key
            ((if rc ≤ 0 then value else old_value), wrap32 (rc + 1))⟩
    | none => ⟨m.data ++ [(key, (value, 1))]⟩

/-- `HashDB::remove`. -/
def MemoryDB.remove (H : Hasher) (m : MemoryDB) (key : Digest) : MemoryDB :=
  if key = H.HASHED_NULL_RLP then m
  else
    match mapLookup m.data key with
    | some (v, rc) => ⟨mapUpdate m.data key (v, wrap32 (rc - 1))⟩
    | none => ⟨m.data ++ [(key, ([], -1))]⟩

/-- The read-only operations (`&self` methods) of the store. -/
inductive QueryOp where
  | getQ (key : Digest)
  | containsQ (key : Digest)
  | rawQ (key : Digest)
  | keysQ
  | memUsedQ

/-- Results of the read-only operations. -/
inductive QueryResult where
  | valueR (r : Option Value)
  | boolR (r : Bool)
  | rawR (r : Option (Value × Int))
  | keysR (r : List (Digest × Int))
  | natR (r : Nat)

/-- Run a read-only operation as a state transformer, threading the store
through exactly as the `&self` receiver does. -/
def runQuery (H : Hasher) (sz : DataMap → Nat) (q : QueryOp) (m : MemoryDB) :
    QueryResult × MemoryDB :=
  match q with
  | .getQ key => (.valueR (m.get H key), m)
  | .containsQ key => (.boolR (m.contains H key), m)
  | .rawQ key => (.rawR (m.raw H key), m)
  | .keysQ => (.keysR m.keys, m)
  | .memUsedQ => (.natR (m.mem_used sz), m)

/-- The merge of one incoming `(value, rc)` entry with an existing optional
entry, as performed by the `consolidate` loop body. -/
def mergeEntry (v : Value) (rc : Int) (o : Option (Value × Int)) :
    Option (Value × Int) :=
  match o with
  | none => some (v, rc)
  | some (sv, src) => some ((if src < 0 then v else sv), wrap32 (src + rc))

/-- States reachable from `MemoryDB::new` by any sequence of the public
mutating operations (with `consolidate` arguments themselves reachable). -/
inductive Reachable (H : Hasher) : MemoryDB → Prop where
  | new : Reachable H MemoryDB.new
  | insert (m : MemoryDB) (v : Value) :
      Reachable H m → Reachable H (m.insert H v).2
  | emplace (m : MemoryDB) (k : Digest) (v : Value) :
      Reachable H m → Reachable H (m.emplace k v)
  | remove (m : MemoryDB) (k : Digest) :
      Reachable H m → Reachable H (m.remove H k)
  | remove_and_purge (m : MemoryDB) (k : Digest) :
      Reachable H m → Reachable H (m.remove_and_purge H k).2
  | purge (m : MemoryDB) : Reachable H m → Reachable H m.purge
  | clear (m : MemoryDB) : Reachable H m → Reachable H m.clear
  | drain (m : MemoryDB) : Reachable H m → Reachable H (m.drain).2
  | consolidate (m o : MemoryDB) :
      Reachable H m → Reachable H o → Reachable H (m.consolidate o)

/-- Like `Reachable`, but no `emplace` call may use the null digest as its
key. -/
inductive ReachableNE (H : Hasher) : MemoryDB → Prop where
  | new : ReachableNE H MemoryDB.new
  | insert (m : MemoryDB) (v : Value) :
      ReachableNE H m → ReachableNE H (m.insert H v).2
  | emplace (m : MemoryDB) (k : Digest) (v : Value) :
      k ≠ H.HASHED_NULL_RLP → ReachableNE H m → ReachableNE H (m.emplace k v)
  | remove (m : MemoryDB) (k : Digest) :
      ReachableNE H m → ReachableNE H (m.remove H k)
  | remove_and_purge (m : MemoryDB) (k : Digest) :
      ReachableNE H m → ReachableNE H (m.remove_and_purge H k).2
  | purge (m : MemoryDB) : ReachableNE H m → ReachableNE H m.purge
  | clear (m : MemoryDB) : ReachableNE H m → ReachableNE H m.clear
  | drain (m : MemoryDB) : ReachableNE H m → ReachableNE H (m.drain).2
  | consolidate (m o : MemoryDB) :
      ReachableNE H m → ReachableNE H o → ReachableNE H (m.consolidate o)

/-- A toy injective-enough encoding of byte strings, for concrete test
hashers. -/
def encodeValue (v : Value) : Nat :=
  v.foldl (fun a b => a * 256 + b + 1) 0

/-- A concrete hasher for witnesses: the null value hashes to `0`, every
other value to a positive number. -/
def testHasher : Hasher where
  hash := fun v => if v = NULL_RLP then 0 else encodeValue v + 1
  HASHED_NULL_RLP := 0

/-- A store holding a negative-refcount placeholder at
`testHasher.hash [1] = 3`. -/
def dbNeg : MemoryDB := ⟨[(3, ([], -2))]⟩

/-- A store obtained by `emplace`-ing a non-null value at the null digest. -/
def badNullState : MemoryDB :=
  MemoryDB.emplace MemoryDB.new testHasher.HASHED_NULL_RLP [1]

/-- A `self` store whose refcount at digest 1 sits at the `i32` maximum. -/
def dbMaxSelf : MemoryDB := ⟨[(1, ([5], 2147483647))]⟩

/-- An `other` store with a single live entry at digest 1. -/
def dbOneOther : MemoryDB := ⟨[(1, ([7], 1))]⟩

/-- A store whose refcount at `testHasher.hash [1] = 3` sits at the
`i32` maximum. -/
def dbInsMax : MemoryDB := ⟨[(3, ([1], 2147483647))]⟩

/-- A store whose refcount at digest 7 sits at the `i32` minimum. -/
def dbMinRc : MemoryDB := ⟨[(7, ([2], -2147483648))]⟩

-- Smoke checks of the embedding on the crate's doc example shape.
example : (MemoryDB.new.insert testHasher [1]).1 = 3 := by decide
example :
    MemoryDB.contains testHasher (MemoryDB.new.insert testHasher [1]).2 3 =
      true := by decide
example :
    MemoryDB.get testHasher (MemoryDB.new.insert testHasher [1]).2 3 =
      some [1] := by decide

/-! ### Basic lemmas about the association-list map -/

theorem wrap32_eq_self (n : Int) (h1 : -2147483648 ≤ n)
    (h2 : n < 2147483648) : wrap32 n = n := by
  unfold wrap32
  omega

theorem mapLookup_mem (l : DataMap) (k : Digest) (e : Value × Int)
    (h : mapLookup l k = some e) : (k, e) ∈ l := by
  induction l with
  | nil => exact absurd h (by simp [mapLookup])
  | cons hd tl ih =>
      obtain ⟨k', e'⟩ := hd
      by_cases hk : k' = k
      · subst hk
        simp [mapLookup] at h
        subst h
        exact List.mem_cons_self _ _
      · simp only [mapLookup, if_neg hk] at h
        exact List.mem_cons_of_mem _ (ih h)

theorem lookup_rc_inRange (l : DataMap) (k : Digest) (v : Value) (rc : Int)
    (hr : ∀ e ∈ l, InRange32 e.2.2)
    (h : mapLookup l k = some (v, rc)) : InRange32 rc :=
  hr (k, (v, rc)) (mapLookup_mem l k (v, rc) h)

theorem keysOf_nil : keysOf [] = [] := rfl

theorem keysOf_cons (hd : Digest × (Value × Int)) (tl : DataMap) :
    keysOf (hd :: tl) = hd.1 :: keysOf tl := rfl

theorem keysOf_append (l₁ l₂ : DataMap) :
    keysOf (l₁ ++ l₂) = keysOf l₁ ++ keysOf l₂ :=
  List.map_append _ _ _

theorem mapLookup_append (l₁ l₂ : DataMap) (k : Digest) :
    mapLookup (l₁ ++ l₂) k =
      match mapLookup l₁ k with
      | some e => some e
      | none => mapLookup l₂ k := by
  induction l₁ with
  | nil => rfl
  | cons hd tl ih =>
      obtain ⟨k', e'⟩ := hd
      by_cases hk : k' = k
      · simp [mapLookup, hk]
      · simp [mapLookup, hk, ih]

theorem mapLookup_append_single_self (l : DataMap) (k : Digest)
    (e : Value × Int) (h : mapLookup l k = none) :
    mapLookup (l ++ [(k, e)]) k = some e := by
  rw [mapLookup_append, h]
  simp [mapLookup]

theorem mapLookup_append_single_ne (l : DataMap) (k j : Digest)
    (e : Value × Int) (h : j ≠ k) :
    mapLookup (l ++ [(k, e)]) j = mapLookup l j := by
  rw [mapLookup_append]
  cases hl : mapLookup l j with
  | none => simp [mapLookup, Ne.symm h]
  | some e' => rfl

theorem mapLookup_update_self (l : DataMap) (k : Digest) (e : Value × Int) :
    mapLookup (mapUpdate l k e) k =
      match mapLookup l k with
      | some _ => some e
      | none => none := by
  induction l with
  | nil => rfl
  | cons hd tl ih =>
      obtain ⟨k', e'⟩ := hd
      by_cases hk : k' = k
      · simp [mapLookup, mapUpdate, hk]
      · simp [mapLookup, mapUpdate, hk, ih]

theorem mapLookup_update_ne (l : DataMap) (k j : Digest) (e : Value × Int)
    (h : j ≠ k) :
    mapLookup (mapUpdate l k e) j = mapLookup l j := by
  induction l with
  | nil => rfl
  | cons hd tl ih =>
      obtain ⟨k', e'⟩ := hd
      by_cases hk : k' = k
      · subst hk
        simp [mapLookup, mapUpdate, Ne.symm h]
      · by_cases hj : k' = j
        · simp [mapLookup, mapUpdate, hk, hj, h]
        · simp [mapLookup, mapUpdate, hk, hj, ih]

theorem keysOf_update (l : DataMap) (k : Digest) (e : Value × Int) :
    keysOf (mapUpdate l k e) = keysOf l := by
  induction l with
  | nil => rfl
  | cons hd tl ih =>
      obtain ⟨k', e'⟩ := hd
      by_cases hk : k' = k
      · simp [keysOf_cons, mapUpdate, hk]
      · simp [keysOf_cons, mapUpdate, hk, ih]

theorem mapLookup_eq_none_iff (l : DataMap) (k : Digest) :
    mapLookup l k = none ↔ k ∉ keysOf l := by
  induction l with
  | nil => simp [mapLookup, keysOf_nil]
  | cons hd tl ih =>
      obtain ⟨k', e'⟩ := hd
      by_cases hk : k' = k
      · simp [mapLookup, keysOf_cons, hk]
      · simp [mapLookup, keysOf_cons, hk, Ne.symm hk, ih]

theorem mapRemove_sublist (l : DataMap) (k : Digest) :
    (mapRemove l k).Sublist l := by
  induction l with
  | nil => simp [mapRemove]
  | cons hd tl ih =>
      obtain ⟨k', e'⟩ := hd
      by_cases hk : k' = k
      · simp only [mapRemove, if_pos hk]
        exact (List.Sublist.refl tl).cons _
      · simp only [mapRemove, if_neg hk]
        exact ih.cons₂ _

theorem mapLookup_remove_ne (l : DataMap) (k j : Digest) (h : j ≠ k) :
    mapLookup (mapRemove l k) j = mapLookup l j := by
  induction l with
  | nil => rfl
  | cons hd tl ih =>
      obtain ⟨k', e'⟩ := hd
      by_cases hk : k' = k
      · subst hk
        simp [mapRemove, mapLookup, Ne.symm h]
      · by_cases hj : k' = j
        · simp [mapRemove, mapLookup, hk, hj, h]
        · simp [mapRemove, mapLookup, hk, hj, ih]

theorem mapLookup_remove_self (l : DataMap) (k : Digest)
    (h : (keysOf l).Nodup) : mapLookup (mapRemove l k) k = none := by
  induction l with
  | nil => rfl
  | cons hd tl ih =>
      obtain ⟨k', e'⟩ := hd
      simp only [keysOf_cons, List.nodup_cons] at h
      by_cases hk : k' = k
      · subst hk
        simp only [mapRemove, if_pos rfl]
        exact (mapLookup_eq_none_iff tl k').mpr h.1
      · simp only [mapRemove, if_neg hk, mapLookup, if_neg hk]
        exact ih h.2

theorem mapLookup_filter_none (l : DataMap) (k : Digest)
    (p : Digest × (Value × Int) → Bool) (h : mapLookup l k = none) :
    mapLookup (l.filter p) k = none := by
  induction l with
  | nil => rfl
  | cons hd tl ih =>
      obtain ⟨k', e'⟩ := hd
      by_cases hk : k' = k
      · simp [mapLookup, hk] at h
      · simp only [mapLookup, if_neg hk] at h
        by_cases hp : p (k', e')
        · simp only [List.filter_cons, hp, if_pos, mapLookup, if_neg hk]
          exact ih h
        · simp only [List.filter_cons, hp]
          simpa using ih h

theorem mapLookup_filter_rc (l : DataMap) (h : (keysOf l).Nodup) (k : Digest) :
    mapLookup (l.filter (fun e => e.2.2 != 0)) k =
      match mapLookup l k with
      | some (v, rc) => if rc = 0 then none else some (v, rc)
      | none => none := by
  induction l with
  | nil => rfl
  | cons hd tl ih =>
      obtain ⟨k', v', rc'⟩ := hd
      simp only [keysOf_cons, List.nodup_cons] at h
      by_cases hk : k' = k
      · subst hk
        simp only [mapLookup, if_pos rfl]
        by_cases hrc : rc' = 0
        · simp only [List.filter_cons, hrc]
          simp only [bne_self_eq_false, Bool.false_eq_true, if_neg,
            if_pos rfl]
          have htl : mapLookup tl k' = none :=
            (mapLookup_eq_none_iff tl k').mpr h.1
          simpa using mapLookup_filter_none tl k' _ htl
        · simp [List.filter_cons, hrc, mapLookup]
      · simp only [mapLookup, if_neg hk]
        by_cases hrc : rc' = 0
        · simp only [List.filter_cons, hrc]
          simpa using ih h.2
        · simp only [List.filter_cons]
          simp only [bne_iff_ne, ne_eq, hrc, not_false_eq_true, if_pos,
            mapLookup, if_neg hk]
          exact ih h.2

/-! ### The `consolidate` fold -/

theorem consolidateEntry_lookup_ne (acc : DataMap)
    (kve : Digest × (Value × Int)) (j : Digest) (h : j ≠ kve.1) :
    mapLookup (consolidateEntry acc kve) j = mapLookup acc j := by
  obtain ⟨k, v, rc⟩ := kve
  simp only [consolidateEntry]
  cases hlk : mapLookup acc k with
  | none => exact mapLookup_append_single_ne acc k j (v, rc) h
  | some e =>
      obtain ⟨sv, src⟩ := e
      exact mapLookup_update_ne acc k j _ h

theorem consolidateEntry_lookup_self (acc : DataMap) (k : Digest)
    (v : Value) (rc : Int) :
    mapLookup (consolidateEntry acc (k, (v, rc))) k =
      mergeEntry v rc (mapLookup acc k) := by
  simp only [consolidateEntry, mergeEntry]
  cases hlk : mapLookup acc k with
  | none => exact mapLookup_append_single_self acc k (v, rc) hlk
  | some e =>
      obtain ⟨sv, src⟩ := e
      rw [mapLookup_update_self, hlk]

theorem foldl_consolidate_notmem (l acc : DataMap) (k : Digest)
    (h : mapLookup l k = none) :
    mapLookup (l.foldl consolidateEntry acc) k = mapLookup acc k := by
  induction l generalizing acc with
  | nil => rfl
  | cons hd tl ih =>
      obtain ⟨k₁, e₁⟩ := hd
      by_cases hk : k₁ = k
      · simp [mapLookup, hk] at h
      · simp only [mapLookup, if_neg hk] at h
        rw [List.foldl_cons, ih (consolidateEntry acc (k₁, e₁)) h]
        exact consolidateEntry_lookup_ne acc (k₁, e₁) k (Ne.symm hk)

theorem foldl_consolidate_mem (l acc : DataMap) (k : Digest) (v : Value)
    (rc : Int) (hnd : (keysOf l).Nodup)
    (h : mapLookup l k = some (v, rc)) :
    mapLookup (l.foldl consolidateEntry acc) k =
      mergeEntry v rc (mapLookup acc k) := by
  induction l generalizing acc with
  | nil => simp [mapLookup] at h
  | cons hd tl ih =>
      obtain ⟨k₁, e₁⟩ := hd
      simp only [keysOf_cons, List.nodup_cons] at hnd
      by_cases hk : k₁ = k
      · subst hk
        simp [mapLookup] at h
        subst h
        have htl : mapLookup tl k₁ = none :=
          (mapLookup_eq_none_iff tl k₁).mpr hnd.1
        rw [List.foldl_cons,
          foldl_consolidate_notmem tl (consolidateEntry acc (k₁, (v, rc)))
            k₁ htl]
        exact consolidateEntry_lookup_self acc k₁ v rc
      · simp only [mapLookup, if_neg hk] at h
        rw [List.foldl_cons, ih (consolidateEntry acc (k₁, e₁)) hnd.2 h,
          consolidateEntry_lookup_ne acc (k₁, e₁) k (Ne.symm hk)]

theorem consolidate_lookup (m o : MemoryDB)
    (h : (keysOf o.data).Nodup) (k : Digest) :
    mapLookup (m.consolidate o).data k =
      match mapLookup o.data k with
      | none => mapLookup m.data k
      | some (v, rc) => mergeEntry v rc (mapLookup m.data k) := by
  cases hlk : mapLookup o.data k with
  | none => exact foldl_consolidate_notmem o.data m.data k hlk
  | some e =>
      obtain ⟨v, rc⟩ := e
      exact foldl_consolidate_mem o.data m.data k v rc h hlk

/-! ### Data equations for the mutating operations -/

theorem insert_fst (H : Hasher) (m : MemoryDB) (v : Value)
    (hv : v ≠ NULL_RLP) : (m.insert H v).1 = H.hash v := by
  simp only [MemoryDB.insert, if_neg hv]
  cases mapLookup m.data (H.hash v) with
  | none => rfl
  | some e => obtain ⟨w, rc⟩ := e; rfl

theorem insert_data (H : Hasher) (m : MemoryDB) (v : Value)
    (hv : v ≠ NULL_RLP) :
    ((m.insert H v).2).data =
      match mapLookup m.data (H.hash v) with
      | some (w, rc) =>
          mapUpdate m.data (H.hash v)
            ((if rc ≤ 0 then v else w), wrap32 (rc + 1))
      | none => m.data ++ [(H.hash v, (v, 1))] := by
  simp only [MemoryDB.insert, if_neg hv]
  cases mapLookup m.data (H.hash v) with
  | none => rfl
  | some e => obtain ⟨w, rc⟩ := e; rfl

theorem insert_lookup (H : Hasher) (m : MemoryDB) (v : Value) (j : Digest) :
    mapLookup ((m.insert H v).2).data j =
      if v = NULL_RLP then mapLookup m.data j
      else if j = H.hash v then
        some (match mapLookup m.data (H.hash v) with
              | none => (v, 1)
              | some (w, rc) =>
                  ((if rc ≤ 0 then v else w), wrap32 (rc + 1)))
      else mapLookup m.data j := by
  by_cases hv : v = NULL_RLP
  · simp only [MemoryDB.insert, if_pos hv]
  · rw [insert_data H m v hv, if_neg hv]
    cases hlk : mapLookup m.data (H.hash v) with
    | none =>
        by_cases hj : j = H.hash v
        · subst hj
          rw [if_pos rfl]
          exact mapLookup_append_single_self m.data (H.hash v) (v, 1) hlk
        · rw [if_neg hj]
          exact mapLookup_append_single_ne m.data (H.hash v) j (v, 1) hj
    | some e =>
        obtain ⟨w, rc⟩ := e
        by_cases hj : j = H.hash v
        · subst hj
          rw [if_pos rfl, mapLookup_update_self, hlk]
        · rw [if_neg hj]
          exact mapLookup_update_ne m.data (H.hash v) j _ hj

theorem emplace_data (m : MemoryDB) (key : Digest) (v : Value)
    (hv : v ≠ NULL_RLP) :
    (m.emplace key v).data =
      match mapLookup m.data key with
      | some (w, rc) =>
          mapUpdate m.data key ((if rc ≤ 0 then v else w), wrap32 (rc + 1))
      | none => m.data ++ [(key, (v, 1))] := by
  simp only [MemoryDB.emplace, if_neg hv]
  cases mapLookup m.data key with
  | none => rfl
  | some e => obtain ⟨w, rc⟩ := e; rfl

theorem emplace_lookup (m : MemoryDB) (key : Digest) (v : Value)
    (j : Digest) :
    mapLookup (m.emplace key v).data j =
      if v = NULL_RLP then mapLookup m.data j
      else if j = key then
        some (match mapLookup m.data key with
              | none => (v, 1)
              | some (w, rc) =>
                  ((if rc ≤ 0 then v else w), wrap32 (rc + 1)))
      else mapLookup m.data j := by
  by_cases hv : v = NULL_RLP
  · simp only [MemoryDB.emplace, if_pos hv]
  · rw [emplace_data m key v hv, if_neg hv]
    cases hlk : mapLookup m.data key with
    | none =>
        by_cases hj : j = key
        · subst hj
          rw [if_pos rfl]
          exact mapLookup_append_single_self m.data j (v, 1) hlk
        · rw [if_neg hj]
          exact mapLookup_append_single_ne m.data key j (v, 1) hj
    | some e =>
        obtain ⟨w, rc⟩ := e
        by_cases hj : j = key
        · subst hj
          rw [if_pos rfl, mapLookup_update_self, hlk]
        · rw [if_neg hj]
          exact mapLookup_update_ne m.data key j _ hj

theorem remove_data (H : Hasher) (m : MemoryDB) (key : Digest)
    (hk : key ≠ H.HASHED_NULL_RLP) :
    (m.remove H key).data =
      match mapLookup m.data key with
      | some (v, rc) => mapUpdate m.data key (v, wrap32 (rc - 1))
      | none => m.data ++ [(key, ([], -1))] := by
  simp only [MemoryDB.remove, if_neg hk]
  cases mapLookup m.data key with
  | none => rfl
  | some e => obtain ⟨v, rc⟩ := e; rfl

theorem remove_lookup (H : Hasher) (m : MemoryDB) (key j : Digest) :
    mapLookup (m.remove H key).data j =
      if key = H.HASHED_NULL_RLP then mapLookup m.data j
      else if j = key then
        some (match mapLookup m.data key with
              | none => ([], -1)
              | some (w, rc) => (w, wrap32 (rc - 1)))
      else mapLookup m.data j := by
  by_cases hk : key = H.HASHED_NULL_RLP
  · simp only [MemoryDB.remove, if_pos hk]
  · rw [remove_data H m key hk, if_neg hk]
    cases hlk : mapLookup m.data key with
    | none =>
        by_cases hj : j = key
        · subst hj
          rw [if_pos rfl]
          exact mapLookup_append_single_self m.data j ([], -1) hlk
        · rw [if_neg hj]
          exact mapLookup_append_single_ne m.data key j ([], -1) hj
    | some e =>
        obtain ⟨w, rc⟩ := e
        by_cases hj : j = key
        · subst hj
          rw [if_pos rfl, mapLookup_update_self, hlk]
        · rw [if_neg hj]
          exact mapLookup_update_ne m.data key j _ hj

theorem remove_and_purge_fst (H : Hasher) (m : MemoryDB) (key : Digest) :
    (m.remove_and_purge H key).1 =
      if key = H.HASHED_NULL_RLP then none
      else
        match mapLookup m.data key with
        | some (v, rc) => if rc = 1 then some v else none
        | none => none := by
  by_cases hk : key = H.HASHED_NULL_RLP
  · simp only [MemoryDB.remove_and_purge, if_pos hk]
  · simp only [MemoryDB.remove_and_purge, if_neg hk]
    cases mapLookup m.data key with
    | none => rfl
    | some e =>
        obtain ⟨v, rc⟩ := e
        by_cases h1 : rc = 1 <;> simp [h1]

theorem remove_and_purge_state (H : Hasher) (m : MemoryDB) (key : Digest)
    (hk : key ≠ H.HASHED_NULL_RLP) :
    ((m.remove_and_purge H key).2).data =
      match mapLookup m.data key with
      | some (v, rc) =>
          if rc = 1 then mapRemove m.data key
          else mapUpdate m.data key (v, wrap32 (rc - 1))
      | none => m.data ++ [(key, ([], -1))] := by
  simp only [MemoryDB.remove_and_purge, if_neg hk]
  cases mapLookup m.data key with
  | none => rfl
  | some e =>
      obtain ⟨v, rc⟩ := e
      by_cases h1 : rc = 1 <;> simp [h1]

/-! ### Preservation of key-distinctness by every operation -/

theorem nodup_keys_append_fresh (l : DataMap) (k : Digest) (e : Value × Int)
    (h : (keysOf l).Nodup) (hn : mapLookup l k = none) :
    (keysOf (l ++ [(k, e)])).Nodup := by
  rw [keysOf_append]
  refine List.Nodup.append h (List.nodup_singleton k) ?_
  intro a ha hb
  have hak : a = k := by simpa [keysOf] using hb
  subst hak
  exact (mapLookup_eq_none_iff l a).mp hn ha

theorem nodup_keys_update (l : DataMap) (k : Digest) (e : Value × Int)
    (h : (keysOf l).Nodup) : (keysOf (mapUpdate l k e)).Nodup := by
  rw [keysOf_update]
  exact h

theorem nodup_keys_mapRemove (l : DataMap) (k : Digest)
    (h : (keysOf l).Nodup) : (keysOf (mapRemove l k)).Nodup :=
  List.Nodup.sublist ((mapRemove_sublist l k).map Prod.fst) h

theorem nodup_keys_filter (l : DataMap) (p : Digest × (Value × Int) → Bool)
    (h : (keysOf l).Nodup) : (keysOf (l.filter p)).Nodup :=
  List.Nodup.sublist ((List.filter_sublist l).map Prod.fst) h

theorem insert_WF (H : Hasher) (m : MemoryDB) (v : Value)
    (h : (keysOf m.data).Nodup) :
    (keysOf ((m.insert H v).2).data).Nodup := by
  by_cases hv : v = NULL_RLP
  · simp only [MemoryDB.insert, if_pos hv]
    exact h
  · show (keysOf ((m.insert H v).2).data).Nodup
    rw [insert_data H m v hv]
    cases hlk : mapLookup m.data (H.hash v) with
    | none => exact nodup_keys_append_fresh m.data (H.hash v) (v, 1) h hlk
    | some e =>
        obtain ⟨w, rc⟩ := e
        exact nodup_keys_update m.data (H.hash v) _ h

theorem emplace_WF (m : MemoryDB) (key : Digest) (v : Value)
    (h : (keysOf m.data).Nodup) :
    (keysOf (m.emplace key v).data).Nodup := by
  by_cases hv : v = NULL_RLP
  · simp only [MemoryDB.emplace, if_pos hv]
    exact h
  · show (keysOf (m.emplace key v).data).Nodup
    rw [emplace_data m key v hv]
    cases hlk : mapLookup m.data key with
    | none => exact nodup_keys_append_fresh m.data key (v, 1) h hlk
    | some e =>
        obtain ⟨w, rc⟩ := e
        exact nodup_keys_update m.data key _ h

theorem remove_WF (H : Hasher) (m : MemoryDB) (key : Digest)
    (h : (keysOf m.data).Nodup) :
    (keysOf (m.remove H key).data).Nodup := by
  by_cases hk : key = H.HASHED_NULL_RLP
  · simp only [MemoryDB.remove, if_pos hk]
    exact h
  · show (keysOf (m.remove H key).data).Nodup
    rw [remove_data H m key hk]
    cases hlk : mapLookup m.data key with
    | none => exact nodup_keys_append_fresh m.data key ([], -1) h hlk
    | some e =>
        obtain ⟨v, rc⟩ := e
        exact nodup_keys_update m.data key _ h

theorem remove_and_purge_WF (H : Hasher) (m : MemoryDB) (key : Digest)
    (h : (keysOf m.data).Nodup) :
    (keysOf ((m.remove_and_purge H key).2).data).Nodup := by
  by_cases hk : key = H.HASHED_NULL_RLP
  · simp only [MemoryDB.remove_and_purge, if_pos hk]
    exact h
  · show (keysOf ((m.remove_and_purge H key).2).data).Nodup
    rw [remove_and_purge_state H m key hk]
    cases hlk : mapLookup m.data key with
    | none => exact nodup_keys_append_fresh m.data key ([], -1) h hlk
    | some e =>
        obtain ⟨v, rc⟩ := e
        show (keysOf (if rc = 1 then mapRemove m.data key
            else mapUpdate m.data key (v, wrap32 (rc - 1)))).Nodup
        by_cases h1 : rc = 1
        · rw [if_pos h1]
          exact nodup_keys_mapRemove m.data key h
        · rw [if_neg h1]
          exact nodup_keys_update m.data key _ h

theorem purge_WF (m : MemoryDB) (h : (keysOf m.data).Nodup) :
    (keysOf m.purge.data).Nodup :=
  nodup_keys_filter m.data _ h

theorem consolidateEntry_WF (acc : DataMap) (kve : Digest × (Value × Int))
    (h : (keysOf acc).Nodup) : (keysOf (consolidateEntry acc kve)).Nodup := by
  obtain ⟨k, v, rc⟩ := kve
  simp only [consolidateEntry]
  cases hlk : mapLookup acc k with
  | none => exact nodup_keys_append_fresh acc k (v, rc) h hlk
  | some e =>
      obtain ⟨sv, src⟩ := e
      exact nodup_keys_update acc k _ h

theorem foldl_consolidate_WF (l acc : DataMap) (h : (keysOf acc).Nodup) :
    (keysOf (l.foldl consolidateEntry acc)).Nodup := by
  induction l generalizing acc with
  | nil => exact h
  | cons hd tl ih =>
      rw [List.foldl_cons]
      exact ih (consolidateEntry acc hd) (consolidateEntry_WF acc hd h)

theorem consolidate_WF (m o : MemoryDB) (h : (keysOf m.data).Nodup) :
    (keysOf (m.consolidate o).data).Nodup :=
  foldl_consolidate_WF o.data m.data h

theorem reachableNE_wf (H : Hasher) (m : MemoryDB)
    (h : ReachableNE H m) : (keysOf m.data).Nodup := by
  induction h with
  | new => exact List.nodup_nil
  | insert m v _ ih => exact insert_WF H m v ih
  | emplace m k v _ _ ih => exact emplace_WF m k v ih
  | remove m k _ ih => exact remove_WF H m k ih
  | remove_and_purge m k _ ih => exact remove_and_purge_WF H m k ih
  | purge m _ ih => exact purge_WF m ih
  | clear m _ _ => exact List.nodup_nil
  | drain m _ _ => exact List.nodup_nil
  | consolidate m o _ _ ihm _ => exact consolidate_WF m o ihm

/-- Under a hasher that maps only `NULL_RLP` to the null digest, every
state reachable without `emplace`-ing at the null digest keeps the null
digest out of the backing map. -/
theorem reachableNE_null_none (H : Hasher)
    (hh : ∀ v, H.hash v = H.HASHED_NULL_RLP → v = NULL_RLP)
    (m : MemoryDB) (hr : ReachableNE H m) :
    mapLookup m.data H.HASHED_NULL_RLP = none := by
  induction hr with
  | new => rfl
  | insert m v _ ih =>
      rw [insert_lookup]
      by_cases hv : v = NULL_RLP
      · rw [if_pos hv]
        exact ih
      · have hne : H.HASHED_NULL_RLP ≠ H.hash v :=
          fun he => hv (hh v he.symm)
        rw [if_neg hv, if_neg hne]
        exact ih
  | emplace m k v hk _ ih =>
      rw [emplace_lookup]
      by_cases hv : v = NULL_RLP
      · rw [if_pos hv]
        exact ih
      · rw [if_neg hv, if_neg (Ne.symm hk)]
        exact ih
  | remove m k _ ih =>
      rw [remove_lookup]
      by_cases hk : k = H.HASHED_NULL_RLP
      · rw [if_pos hk]
        exact ih
      · rw [if_neg hk, if_neg (Ne.symm hk)]
        exact ih
  | remove_and_purge m k _ ih =>
      by_cases hk : k = H.HASHED_NULL_RLP
      · simp only [MemoryDB.remove_and_purge, if_pos hk]
        exact ih
      · rw [remove_and_purge_state H m k hk]
        cases hlk : mapLookup m.data k with
        | none =>
            rw [mapLookup_append_single_ne m.data k _ _ (Ne.symm hk)]
            exact ih
        | some e =>
            obtain ⟨v, rc⟩ := e
            show mapLookup (if rc = 1 then mapRemove m.data k
                else mapUpdate m.data k (v, wrap32 (rc - 1)))
                H.HASHED_NULL_RLP = none
            by_cases h1 : rc = 1
            · rw [if_pos h1, mapLookup_remove_ne m.data k _ (Ne.symm hk)]
              exact ih
            · rw [if_neg h1, mapLookup_update_ne m.data k _ _ (Ne.symm hk)]
              exact ih
  | purge m _ ih => exact mapLookup_filter_none m.data _ _ ih
  | clear m _ _ => rfl
  | drain m _ _ => rfl
  | consolidate m o _ ho ihm iho =>
      rw [consolidate_lookup m o (reachableNE_wf H o ho), iho]
      exact ihm

/-- For the concrete `testHasher`, only the null value hashes to the null
digest. -/
theorem testHasher_null_honest (v : Value)
    (h : testHasher.hash v = testHasher.HASHED_NULL_RLP) : v = NULL_RLP := by
  by_cases hv : v = NULL_RLP
  · exact hv
  · simp [testHasher, hv] at h

/-- Filtering twice with the same predicate is the same as filtering
once. -/
theorem filter_twice (l : DataMap) (p : Digest × (Value × Int) → Bool) :
    (l.filter p).filter p = l.filter p := by
  induction l with
  | nil => rfl
  | cons hd tl ih =>
      by_cases hp : p hd
      · simp [List.filter_cons, hp, ih]
      · simp [List.filter_cons, hp, ih]

/-- `contains` outside the null digest is the refcount-sign test on the
stored entry. -/
theorem contains_eq (H : Hasher) (m : MemoryDB) (key : Digest)
    (hk : key ≠ H.HASHED_NULL_RLP) :
    m.contains H key =
      match mapLookup m.data key with
      | some (_, x) => decide (x > 0)
      | none => false := by
  simp only [MemoryDB.contains, if_neg hk]

/-! ### The claims -/

/-- C1 fails as stated: at `selfRefcount = i32::MAX` and incoming
`refcount = 1`, the source's `i32` `+=` wraps the merged refcount to
`i32::MIN` (release profile; debug panics), so it is not the exact sum
`selfRefcount + refcount`. -/
theorem consolidate_refcount_overflow_counterexample :
    mapLookup (dbMaxSelf.consolidate dbOneOther).data 1 =
      some ([5], -2147483648) ∧
    ((-2147483648 : Int) ≠ 2147483647 + 1) := by decide

/-- C1 amended: `consolidate(other)` consumes `other` (it is drained to
empty), and for every `(digest, value, refcount)` entry taken from
`other`: if `self` has no entry for that digest, `(value, refcount)` is
inserted verbatim; if `self` has `(selfValue, selfRefcount)`, the stored
value is overwritten with the incoming one exactly when
`selfRefcount < 0`, and the resulting refcount is
`selfRefcount + refcount` computed in wrapping 32-bit (`i32`)
arithmetic, which equals the exact sum whenever that sum fits in an
`i32`. -/
theorem consolidate_merges_and_consumes (m other : MemoryDB)
    (hWF : other.WF) :
    (∀ k, mapLookup (m.consolidate other).data k =
        match mapLookup other.data k with
        | none => mapLookup m.data k
        | some (v, rc) =>
            match mapLookup m.data k with
            | none => some (v, rc)
            | some (sv, src) =>
                some ((if src < 0 then v else sv), wrap32 (src + rc))) ∧
    ((other.drain).2).data = [] := by
  refine ⟨fun k => ?_, rfl⟩
  rw [consolidate_lookup m other hWF.1 k]
  cases mapLookup other.data k with
  | none => rfl
  | some e =>
      obtain ⟨v, rc⟩ := e
      cases mapLookup m.data k with
      | none => rfl
      | some e2 => obtain ⟨sv, src⟩ := e2; rfl

/-- A concrete `self` store for exercising `consolidate`. -/
def dbSelf : MemoryDB := ⟨[(1, ([5], 2)), (2, ([6], -1))]⟩

/-- A concrete `other` store for exercising `consolidate`. -/
def dbOther : MemoryDB := ⟨[(1, ([7], 3)), (2, ([8], 4)), (9, ([9], 1))]⟩

/-- Witness for C1 at concrete stores: digest 2 has `selfRefcount = -1 < 0`
so the incoming value `[8]` wins and the refcount is `-1 + 4 = 3`. -/
theorem consolidate_merges_and_consumes_witness :
    MemoryDB.WF dbOther ∧
    mapLookup (dbSelf.consolidate dbOther).data 2 = some ([8], 3) :=
  ⟨by decide, by
    rw [(consolidate_merges_and_consumes dbSelf dbOther (by decide)).1 2]
    decide⟩

/-- C2 fails as stated: starting from a store whose entry at
`testHasher.hash [1] = 3` has refcount `-2`, inserting `[1]` leaves the
refcount at `-1 ≤ 0`, and `get` on the returned digest yields `none`,
not the inserted value. -/
theorem get_insert_counterexample :
    MemoryDB.get testHasher ((dbNeg.insert testHasher [1]).2)
      ((dbNeg.insert testHasher [1]).1) ≠ some [1] := by decide

/-- C2 amended: `get (insert v) = v` immediately after insertion, provided
`v`'s digest is the null digest only if `v` is the null value, and the
prior entry at `v`'s digest, if any, has refcount in `[0, i32::MAX)`
with stored bytes equal to `v` whenever that refcount is positive (a
negative prior refcount leaves the post-insert refcount nonpositive,
and a prior refcount of `i32::MAX` would wrap to `i32::MIN`). -/
theorem get_insert_amended (H : Hasher) (m : MemoryDB) (v : Value)
    (hnull : H.hash v = H.HASHED_NULL_RLP → v = NULL_RLP)
    (hprior : mapLookup m.data (H.hash v) = none ∨
      ∃ w rc, mapLookup m.data (H.hash v) = some (w, rc) ∧ 0 ≤ rc ∧
        rc < 2147483647 ∧ (0 < rc → w = v)) :
    MemoryDB.get H ((m.insert H v).2) ((m.insert H v).1) = some v := by
  by_cases hv : v = NULL_RLP
  · subst hv
    simp [MemoryDB.insert, MemoryDB.get]
  · have hkey : H.hash v ≠ H.HASHED_NULL_RLP := fun he => hv (hnull he)
    rw [insert_fst H m v hv]
    simp only [MemoryDB.get, if_neg hkey]
    rw [insert_lookup H m v (H.hash v), if_neg hv, if_pos rfl]
    rcases hprior with h | ⟨w, rc, hlk, hrc0, hlt, hrcv⟩
    · rw [h]
      norm_num
    · rw [hlk]
      by_cases hle : rc ≤ 0
      · have h0 : rc = 0 := le_antisymm hle hrc0
        subst h0
        norm_num [wrap32]
      · have hpos : 0 < rc := lt_of_not_le hle
        have hw : wrap32 (rc + 1) = rc + 1 :=
          wrap32_eq_self _ (by omega) (by omega)
        have h1 : rc + 1 > 0 := by omega
        simp [hle, hrcv hpos, hw, h1]

/-- Witness for C2 amended at the empty store. -/
theorem get_insert_amended_witness :
    mapLookup MemoryDB.new.data (testHasher.hash [1]) = none ∧
    MemoryDB.get testHasher ((MemoryDB.new.insert testHasher [1]).2)
      ((MemoryDB.new.insert testHasher [1]).1) = some [1] :=
  ⟨rfl, get_insert_amended testHasher MemoryDB.new [1] (by decide)
    (Or.inl rfl)⟩

/-- The digest returned by inserting `[1]` into the empty store. -/
def k3 : Digest := (MemoryDB.new.insert testHasher [1]).1

/-- The store obtained by inserting `[1]` twice into the empty store. -/
def m3two : MemoryDB :=
  ((MemoryDB.new.insert testHasher [1]).2.insert testHasher [1]).2

/-- C3 fails as stated: inserting the same non-null value twice and then
removing its digest twice leaves the refcount at `0`, so `contains` is
already `false` — not `true` as claimed. -/
theorem insert2_remove2_contains_counterexample :
    MemoryDB.contains testHasher
      ((m3two.remove testHasher k3).remove testHasher k3) k3 = false := by
  decide

/-- C3 amended: starting from a store with no entry for the value's
digest, after inserting the same non-null value twice, one removal of its
digest leaves `contains = true`; a second removal makes `contains =
false` (the entry stays, with refcount `0`), and a third removal keeps
`contains = false`. -/
theorem insert2_remove_lifecycle (H : Hasher) (m : MemoryDB) (v : Value)
    (hv : v ≠ NULL_RLP) (hkey : H.hash v ≠ H.HASHED_NULL_RLP)
    (hnone : mapLookup m.data (H.hash v) = none) :
    MemoryDB.contains H
        ((((m.insert H v).2.insert H v).2).remove H ((m.insert H v).1))
        ((m.insert H v).1) = true ∧
    MemoryDB.contains H
        (((((m.insert H v).2.insert H v).2).remove H
            ((m.insert H v).1)).remove H ((m.insert H v).1))
        ((m.insert H v).1) = false ∧
    MemoryDB.contains H
        ((((((m.insert H v).2.insert H v).2).remove H
            ((m.insert H v).1)).remove H ((m.insert H v).1)).remove H
            ((m.insert H v).1))
        ((m.insert H v).1) = false := by
  have hd : (m.insert H v).1 = H.hash v := insert_fst H m v hv
  rw [hd]
  have l1 : mapLookup ((m.insert H v).2).data (H.hash v) = some (v, 1) := by
    rw [insert_lookup, if_neg hv, if_pos rfl, hnone]
  have l2 : mapLookup (((m.insert H v).2.insert H v).2).data (H.hash v) =
      some (v, 2) := by
    rw [insert_lookup, if_neg hv, if_pos rfl, l1]
    norm_num [wrap32]
  have l3 : mapLookup ((((m.insert H v).2.insert H v).2).remove H
      (H.hash v)).data (H.hash v) = some (v, 1) := by
    rw [remove_lookup, if_neg hkey, if_pos rfl, l2]
    norm_num [wrap32]
  have l4 : mapLookup (((((m.insert H v).2.insert H v).2).remove H
      (H.hash v)).remove H (H.hash v)).data (H.hash v) = some (v, 0) := by
    rw [remove_lookup, if_neg hkey, if_pos rfl, l3]
    norm_num [wrap32]
  have l5 : mapLookup ((((((m.insert H v).2.insert H v).2).remove H
      (H.hash v)).remove H (H.hash v)).remove H (H.hash v)).data
      (H.hash v) = some (v, -1) := by
    rw [remove_lookup, if_neg hkey, if_pos rfl, l4]
    norm_num [wrap32]
  refine ⟨?_, ?_, ?_⟩
  · rw [contains_eq H _ _ hkey, l3]
    rfl
  · rw [contains_eq H _ _ hkey, l4]
    rfl
  · rw [contains_eq H _ _ hkey, l5]
    rfl

/-- Witness for C3 amended at the empty store and value `[1]`. -/
theorem insert2_remove_lifecycle_witness :
    mapLookup MemoryDB.new.data (testHasher.hash [1]) = none ∧
    MemoryDB.contains testHasher
      (m3two.remove testHasher (MemoryDB.new.insert testHasher [1]).1)
      ((MemoryDB.new.insert testHasher [1]).1) = true :=
  ⟨rfl, (insert2_remove_lifecycle testHasher MemoryDB.new [1] (by decide)
    (by decide) rfl).1⟩

/-- C4 fails as stated: `emplace` compares only the value against
`NULL_RLP`, never the key, so `emplace(null_digest, [1])` reaches a state
whose backing map holds an entry keyed by the canonical null digest. -/
theorem null_digest_invariant_counterexample :
    Reachable testHasher badNullState ∧
    mapLookup badNullState.data testHasher.HASHED_NULL_RLP ≠ none :=
  ⟨Reachable.emplace MemoryDB.new testHasher.HASHED_NULL_RLP [1]
    Reachable.new, by decide⟩

/-- C4 amended: provided only the null value hashes to the null digest
and no `emplace` call uses the null digest as its key, every reachable
state keeps the null digest out of the backing map; and `get`, `contains`
and `raw` on the null digest report it present with the fixed empty
value. -/
theorem null_digest_invariant_amended (H : Hasher)
    (hh : ∀ v, H.hash v = H.HASHED_NULL_RLP → v = NULL_RLP)
    (m : MemoryDB) (hr : ReachableNE H m) :
    mapLookup m.data H.HASHED_NULL_RLP = none ∧
    m.get H H.HASHED_NULL_RLP = some NULL_RLP ∧
    m.contains H H.HASHED_NULL_RLP = true ∧
    m.raw H H.HASHED_NULL_RLP = some (NULL_RLP, 1) := by
  refine ⟨reachableNE_null_none H hh m hr, ?_, ?_, ?_⟩
  · simp [MemoryDB.get]
  · simp [MemoryDB.contains]
  · simp [MemoryDB.raw]

/-- Witness for C4 amended at the empty store. -/
theorem null_digest_invariant_amended_witness :
    mapLookup MemoryDB.new.data testHasher.HASHED_NULL_RLP = none ∧
    MemoryDB.get testHasher MemoryDB.new testHasher.HASHED_NULL_RLP =
      some NULL_RLP ∧
    MemoryDB.contains testHasher MemoryDB.new testHasher.HASHED_NULL_RLP =
      true ∧
    MemoryDB.raw testHasher MemoryDB.new testHasher.HASHED_NULL_RLP =
      some (NULL_RLP, 1) :=
  null_digest_invariant_amended testHasher testHasher_null_honest
    MemoryDB.new ReachableNE.new

/-- C5 fails as stated: at a prior refcount of `i32::MAX`, the source's
`i32` `*rc += 1` wraps to `i32::MIN` (release profile; debug panics)
rather than producing the exact increment `i32::MAX + 1`. -/
theorem insert_refcount_overflow_counterexample :
    mapLookup ((dbInsMax.insert testHasher [1]).2).data 3 =
      some ([1], -2147483648) ∧
    ((-2147483648 : Int) ≠ 2147483647 + 1) := by decide

/-- C5 amended: `insert(v)` returns the null digest and leaves the map
unchanged for the null value; otherwise it returns `hash v` and, at that
digest, creates `(v, 1)` when absent, overwrites the bytes and
increments when the refcount is nonpositive, and only increments when it
is positive — the increment being wrapping 32-bit (`i32`) arithmetic,
exact whenever the refcount is below `i32::MAX`. -/
theorem insert_spec (H : Hasher) (m : MemoryDB) (v : Value) :
    (v = NULL_RLP → m.insert H v = (H.HASHED_NULL_RLP, m)) ∧
    (v ≠ NULL_RLP → (m.insert H v).1 = H.hash v) ∧
    (v ≠ NULL_RLP → mapLookup m.data (H.hash v) = none →
      mapLookup ((m.insert H v).2).data (H.hash v) = some (v, 1)) ∧
    (∀ w rc, v ≠ NULL_RLP → mapLookup m.data (H.hash v) = some (w, rc) →
      rc ≤ 0 →
      mapLookup ((m.insert H v).2).data (H.hash v) =
        some (v, wrap32 (rc + 1))) ∧
    (∀ w rc, v ≠ NULL_RLP → mapLookup m.data (H.hash v) = some (w, rc) →
      0 < rc →
      mapLookup ((m.insert H v).2).data (H.hash v) =
        some (w, wrap32 (rc + 1))) := by
  refine ⟨fun hv => ?_, fun hv => insert_fst H m v hv, fun hv hn => ?_,
    fun w rc hv hlk hle => ?_, fun w rc hv hlk hpos => ?_⟩
  · simp [MemoryDB.insert, hv]
  · rw [insert_lookup, if_neg hv, if_pos rfl, hn]
  · rw [insert_lookup, if_neg hv, if_pos rfl, hlk]
    simp [hle]
  · rw [insert_lookup, if_neg hv, if_pos rfl, hlk]
    simp [not_le.mpr hpos]

/-- Witness for C5 at the empty store: inserting `[1]` creates the entry
`([1], 1)`. -/
theorem insert_spec_witness :
    ([1] : Value) ≠ NULL_RLP ∧
    mapLookup MemoryDB.new.data (testHasher.hash [1]) = none ∧
    mapLookup ((MemoryDB.new.insert testHasher [1]).2).data
      (testHasher.hash [1]) = some ([1], 1) :=
  ⟨by decide, rfl,
    (insert_spec testHasher MemoryDB.new [1]).2.2.1 (by decide) rfl⟩

/-- C6 fails as stated: at a refcount of `i32::MIN`, the source's `i32`
`*rc -= 1` wraps to `i32::MAX` (release profile; debug panics) rather
than producing the exact decrement `i32::MIN - 1`. -/
theorem remove_refcount_underflow_counterexample :
    mapLookup (dbMinRc.remove testHasher 7).data 7 =
      some ([2], 2147483647) ∧
    ((2147483647 : Int) ≠ -2147483648 - 1) := by decide

/-- C6 amended: `remove` is a no-op on the null digest; otherwise it
decrements an existing entry's refcount leaving its bytes unchanged —
the decrement being wrapping 32-bit (`i32`) arithmetic, exact whenever
the refcount is above `i32::MIN` — and creates the `([], -1)`
placeholder when the digest is absent. -/
theorem remove_spec (H : Hasher) (m : MemoryDB) (key : Digest) :
    (key = H.HASHED_NULL_RLP → m.remove H key = m) ∧
    (∀ v rc, key ≠ H.HASHED_NULL_RLP →
      mapLookup m.data key = some (v, rc) →
      mapLookup (m.remove H key).data key = some (v, wrap32 (rc - 1))) ∧
    (key ≠ H.HASHED_NULL_RLP → mapLookup m.data key = none →
      mapLookup (m.remove H key).data key = some ([], -1)) := by
  refine ⟨fun hk => ?_, fun v rc hk hlk => ?_, fun hk hn => ?_⟩
  · simp [MemoryDB.remove, hk]
  · rw [remove_lookup, if_neg hk, if_pos rfl, hlk]
  · rw [remove_lookup, if_neg hk, if_pos rfl, hn]

/-- Witness for C6 on a never-inserted digest of the empty store. -/
theorem remove_spec_witness :
    (7 : Digest) ≠ testHasher.HASHED_NULL_RLP ∧
    mapLookup MemoryDB.new.data 7 = none ∧
    mapLookup (MemoryDB.new.remove testHasher 7).data 7 = some ([], -1) :=
  ⟨by decide, rfl,
    (remove_spec testHasher MemoryDB.new 7).2.2 (by decide) rfl⟩

/-- C7 fails as stated: on an entry with refcount `i32::MIN` (which is
not `1`), the source's `i32` decrement wraps the refcount to `i32::MAX`
(release profile; debug panics) rather than producing the exact
decrement `i32::MIN - 1`. -/
theorem remove_and_purge_underflow_counterexample :
    (dbMinRc.remove_and_purge testHasher 7).1 = none ∧
    mapLookup ((dbMinRc.remove_and_purge testHasher 7).2).data 7 =
      some ([2], 2147483647) ∧
    ((2147483647 : Int) ≠ -2147483648 - 1) := by decide

/-- C7 amended: `remove_and_purge` returns nothing and changes nothing
on the null digest; deletes the entry and returns its value when the
refcount is exactly `1`; decrements — in wrapping 32-bit (`i32`)
arithmetic, exact whenever the refcount is above `i32::MIN` — and
returns nothing for any other refcount; and creates the `([], -1)`
placeholder returning nothing when absent. -/
theorem remove_and_purge_spec (H : Hasher) (m : MemoryDB) (key : Digest)
    (hWF : m.WF) :
    (key = H.HASHED_NULL_RLP → m.remove_and_purge H key = (none, m)) ∧
    (∀ v, key ≠ H.HASHED_NULL_RLP → mapLookup m.data key = some (v, 1) →
      (m.remove_and_purge H key).1 = some v ∧
      mapLookup ((m.remove_and_purge H key).2).data key = none) ∧
    (∀ v rc, key ≠ H.HASHED_NULL_RLP →
      mapLookup m.data key = some (v, rc) → rc ≠ 1 →
      (m.remove_and_purge H key).1 = none ∧
      mapLookup ((m.remove_and_purge H key).2).data key =
        some (v, wrap32 (rc - 1))) ∧
    (key ≠ H.HASHED_NULL_RLP → mapLookup m.data key = none →
      (m.remove_and_purge H key).1 = none ∧
      mapLookup ((m.remove_and_purge H key).2).data key =
        some ([], -1)) := by
  refine ⟨fun hk => ?_, fun v hk hlk => ⟨?_, ?_⟩,
    fun v rc hk hlk h1 => ⟨?_, ?_⟩, fun hk hn => ⟨?_, ?_⟩⟩
  · simp [MemoryDB.remove_and_purge, hk]
  · rw [remove_and_purge_fst, if_neg hk, hlk]
    simp
  · simp only [remove_and_purge_state H m key hk, hlk, if_true]
    exact mapLookup_remove_self m.data key hWF.1
  · rw [remove_and_purge_fst, if_neg hk, hlk]
    simp [h1]
  · simp only [remove_and_purge_state H m key hk, hlk]
    rw [if_neg h1, mapLookup_update_self, hlk]
  · rw [remove_and_purge_fst, if_neg hk, hn]
  · simp only [remove_and_purge_state H m key hk, hn]
    exact mapLookup_append_single_self m.data key ([], -1) hn

/-- Witness for C7 on a never-inserted digest of the empty store. -/
theorem remove_and_purge_spec_witness :
    MemoryDB.WF MemoryDB.new ∧
    (5 : Digest) ≠ testHasher.HASHED_NULL_RLP ∧
    (MemoryDB.new.remove_and_purge testHasher 5).1 = none ∧
    mapLookup ((MemoryDB.new.remove_and_purge testHasher 5).2).data 5 =
      some ([], -1) :=
  ⟨by decide, by decide,
    ((remove_and_purge_spec testHasher MemoryDB.new 5 (by decide)).2.2.2
      (by decide) rfl).1,
    ((remove_and_purge_spec testHasher MemoryDB.new 5 (by decide)).2.2.2
      (by decide) rfl).2⟩

/-- C8: `purge` deletes exactly the zero-refcount entries, keeps every
other entry verbatim, and is idempotent. -/
theorem purge_spec (m : MemoryDB) (hWF : m.WF) :
    (∀ k, mapLookup m.purge.data k =
        match mapLookup m.data k with
        | some (v, rc) => if rc = 0 then none else some (v, rc)
        | none => none) ∧
    m.purge.purge = m.purge := by
  constructor
  · intro k
    exact mapLookup_filter_rc m.data hWF.1 k
  · show (⟨(m.data.filter (fun e => e.2.2 != 0)).filter
        (fun e => e.2.2 != 0)⟩ : MemoryDB) =
      ⟨m.data.filter (fun e => e.2.2 != 0)⟩
    rw [filter_twice]

/-- A store holding garbage (refcount `0`), live and pending entries, for
exercising `purge`. -/
def dbPurge : MemoryDB := ⟨[(1, ([2], 0)), (2, ([3], 5)), (4, ([9], -1))]⟩

/-- Witness for C8 at a concrete store: the zero-refcount entry at digest
1 is deleted and `purge` is idempotent. -/
theorem purge_spec_witness :
    MemoryDB.WF dbPurge ∧ dbPurge.purge.purge = dbPurge.purge ∧
    mapLookup dbPurge.purge.data 1 = none :=
  ⟨by decide, (purge_spec dbPurge (by decide)).2, by
    rw [(purge_spec dbPurge (by decide)).1 1]
    decide⟩

/-- C9: when `self` holds `(v0, 0)` (garbage) and `other` holds `(v1, n)`
with `n > 0`, `consolidate` yields `(v0, n)`: the refcount turns positive
yet the bytes stay `self`'s old `v0`, because `consolidate` overwrites
only for strictly negative self refcounts. -/
theorem consolidate_keeps_garbage_value (m other : MemoryDB) (d : Digest)
    (v0 v1 : Value) (n : Int) (hWF : other.WF)
    (h0 : mapLookup m.data d = some (v0, 0))
    (h1 : mapLookup other.data d = some (v1, n)) (hn : 0 < n) :
    mapLookup (m.consolidate other).data d = some (v0, n) ∧ 0 < n := by
  refine ⟨?_, hn⟩
  rw [consolidate_lookup m other hWF.1 d, h1]
  show mergeEntry v1 n (mapLookup m.data d) = some (v0, n)
  rw [h0]
  have hr := lookup_rc_inRange other.data d v1 n hWF.2 h1
  simp [mergeEntry, wrap32_eq_self n hr.1 hr.2]

/-- A `self` store with a garbage entry at digest 4. -/
def db9self : MemoryDB := ⟨[(4, ([7], 0))]⟩

/-- An `other` store with a live entry at digest 4. -/
def db9other : MemoryDB := ⟨[(4, ([9], 2))]⟩

/-- Witness for C9 at concrete stores: the merged entry keeps the old
bytes `[7]` with the new positive refcount `2`. -/
theorem consolidate_keeps_garbage_value_witness :
    MemoryDB.WF db9other ∧
    mapLookup (db9self.consolidate db9other).data 4 = some ([7], 2) :=
  ⟨by decide,
    (consolidate_keeps_garbage_value db9self db9other 4 [7] [9] 2
      (by decide) rfl rfl (by decide)).1⟩

/-- C10: the read-only operations `get`, `contains`, `raw`, `keys` and
`mem_used` leave the store unchanged. -/
theorem queries_preserve_state (H : Hasher) (sz : DataMap → Nat)
    (q : QueryOp) (m : MemoryDB) : (runQuery H sz q m).2 = m := by
  cases q <;> rfl
